import Mathlib

/-!
Verification of the `SyncCommandBuffer` synchronization engine of
`src/vulkano/src/command_buffer/synced/mod.rs`.

Shallow embedding: buffer and image handles are `Nat` identifiers,
`PipelineStages` and `AccessFlags` are bit sets embedded as `Nat` with
bitwise union, `DeviceSize` ranges are half-open `Nat` ranges, and the
hash maps `buffers2` / `images2` are association lists.
-/

set_option autoImplicit false

namespace Vulkano

/-- Half-open range `lo..hi` over `DeviceSize` (embedded as `Nat`). -/
structure DRange where
  lo : Nat
  hi : Nat
deriving DecidableEq

/-- Whether two half-open ranges overlap. -/
def DRange.intersects (a b : DRange) : Bool :=
  decide (a.lo < b.hi) && decide (b.lo < a.hi)

/-- Image layouts (the `ImageLayout` enum; only the constructors the claims
touch are listed, plus representatives of the rest). -/
inductive ImageLayout where
  | Undefined
  | General
  | ColorAttachmentOptimal
  | DepthStencilAttachmentOptimal
  | ShaderReadOnlyOptimal
  | TransferSrcOptimal
  | TransferDstOptimal
  | Preinitialized
deriving DecidableEq

/-- The `AccessError` enum: structured reasons for a denied access.
`AlreadyInUse` and `ExclusiveDenied` stand for the gpu-lock conflict
variants; `UnexpectedImageLayout` mirrors the variant used by
`check_image_access`. -/
inductive AccessError where
  | AlreadyInUse
  | ExclusiveDenied
  | UnexpectedImageLayout (allowed : ImageLayout) (requested : ImageLayout)
deriving DecidableEq

/-- The `AccessCheckError` enum: `Denied(AccessError)` or `Unknown`. -/
inductive AccessCheckError where
  | Denied (e : AccessError)
  | Unknown
deriving DecidableEq

/-- A `BufferUse`: which command (by sequence index) and which named parameter
accessed the buffer. -/
structure BufferUse where
  command_index : Nat
  name : String
deriving DecidableEq

/-- An `ImageUse`: which command (by sequence index) and which named parameter
accessed the image. -/
structure ImageUse where
  command_index : Nat
  name : String
deriving DecidableEq

/-- The `BufferFinalState` record: per-range state of a buffer in a finished command
buffer. `final_stages` / `final_access` are bit sets embedded as `Nat`. -/
structure BufferFinalState where
  resource_uses : List BufferUse
  final_stages : Nat
  final_access : Nat
  exclusive : Bool
deriving DecidableEq

/-- The `ImageFinalState` record: per-range state of an image in a finished command
buffer. -/
structure ImageFinalState where
  resource_uses : List ImageUse
  final_stages : Nat
  final_access : Nat
  exclusive : Bool
  initial_layout : ImageLayout
  final_layout : ImageLayout
deriving DecidableEq

/-- Modelled from the spec: the `RangeMap` substrate (its source is not under
`src/`): an ordered collection of disjoint ranges mapped to values,
embedded as a list of entries. -/
structure RangeMap (V : Type) where
  entries : List (DRange × V)
deriving DecidableEq

/-- Modelled from the spec: `RangeMap::range(query)` yields all stored
entries intersecting the query, in order, each sub-range clipped to the
intersection. -/
def RangeMap.range {V : Type} (m : RangeMap V) (q : DRange) : List (DRange × V) :=
  (m.entries.filter (fun e => e.1.intersects q)).map
    (fun e => (⟨max e.1.lo q.lo, min e.1.hi q.hi⟩, e.2))

/-- Modelled from the spec: `RangeMap::iter` yields every stored entry. -/
def RangeMap.iter {V : Type} (m : RangeMap V) : List (DRange × V) :=
  m.entries

/-- Association-list lookup standing in for `HashMap::get`. -/
def assocFind {V : Type} (l : List (Nat × V)) (k : Nat) : Option V :=
  match l with
  | [] => none
  | p :: rest => if p.1 = k then some p.2 else assocFind rest k

/-- The `SyncCommandBuffer` structure: the finalized command buffer. `commands` keeps only
the diagnostic name of each command (the one piece of `dyn Command` the
synchronization logic reads); `barriers` records where pipeline barriers
were inserted; `buffers2` / `images2` are the tracked per-resource range
maps, keyed by resource identity. -/
structure SyncCommandBuffer where
  commands : List String
  barriers : List Nat
  buffers2 : List (Nat × RangeMap BufferFinalState)
  images2 : List (Nat × RangeMap ImageFinalState)
deriving DecidableEq

/-- The fold body of `check_buffer_access`: Rust's
`try_fold((stages, access), ...)` over the entries intersecting the query. -/
def tryFoldBuffer (exclusive : Bool) :
    List (DRange × BufferFinalState) → Nat × Nat → Except AccessCheckError (Nat × Nat)
  | [], acc => .ok acc
  | (_, st) :: rest, (stages, access) =>
    if !st.exclusive && exclusive then
      .error .Unknown
    else
      tryFoldBuffer exclusive rest (stages ||| st.final_stages, access ||| st.final_access)

/-- Embedding of `SyncCommandBuffer::check_buffer_access`. -/
def SyncCommandBuffer.check_buffer_access (cb : SyncCommandBuffer) (buffer : Nat)
    (range : DRange) (exclusive : Bool) :
    Except AccessCheckError (Option (Nat × Nat)) :=
  match assocFind cb.buffers2 buffer with
  | none => .error .Unknown
  | some range_map => (tryFoldBuffer exclusive (range_map.range range) (0, 0)).map Option.some

/-- The fold body of `check_image_access`: the layout validation runs before
the exclusivity check, per entry. -/
def tryFoldImage (exclusive : Bool) (expected_layout : ImageLayout) :
    List (DRange × ImageFinalState) → Nat × Nat → Except AccessCheckError (Nat × Nat)
  | [], acc => .ok acc
  | (_, st) :: rest, (stages, access) =>
    if expected_layout ≠ ImageLayout.Undefined ∧ st.final_layout ≠ expected_layout then
      .error (.Denied (.UnexpectedImageLayout st.final_layout expected_layout))
    else if !st.exclusive && exclusive then
      .error .Unknown
    else
      tryFoldImage exclusive expected_layout rest
        (stages ||| st.final_stages, access ||| st.final_access)

/-- Embedding of `SyncCommandBuffer::check_image_access`. -/
def SyncCommandBuffer.check_image_access (cb : SyncCommandBuffer) (image : Nat)
    (range : DRange) (exclusive : Bool) (expected_layout : ImageLayout) :
    Except AccessCheckError (Option (Nat × Nat)) :=
  match assocFind cb.images2 image with
  | none => .error .Unknown
  | some range_map =>
    (tryFoldImage exclusive expected_layout (range_map.range range) (0, 0)).map Option.some

/-- Modelled from the spec: the live per-buffer gpu lock state (`UnsafeBuffer::state`,
not under `src/`): a set of currently held per-range locks, each flagged
exclusive (write) or shared (read). -/
structure BufferState where
  locks : List (DRange × Bool)
deriving DecidableEq

/-- Modelled from the spec: a gpu write may not coexist with anything, so the
check fails when any held lock intersects the range. -/
def BufferState.check_gpu_write (s : BufferState) (r : DRange) : Except AccessError Unit :=
  if s.locks.any (fun l => l.1.intersects r) then .error .AlreadyInUse else .ok ()

/-- Modelled from the spec: a gpu read may coexist with other reads, so the
check fails only when an intersecting exclusive lock is held. -/
def BufferState.check_gpu_read (s : BufferState) (r : DRange) : Except AccessError Unit :=
  if s.locks.any (fun l => l.2 && l.1.intersects r) then .error .ExclusiveDenied else .ok ()

/-- Modelled from the spec: acquiring a gpu write lock on a range. -/
def BufferState.gpu_write_lock (s : BufferState) (r : DRange) : BufferState :=
  ⟨(r, true) :: s.locks⟩

/-- Modelled from the spec: acquiring a gpu read lock on a range. -/
def BufferState.gpu_read_lock (s : BufferState) (r : DRange) : BufferState :=
  ⟨(r, false) :: s.locks⟩

/-- Modelled from the spec: the live per-image gpu lock state (`UnsafeImage::state`,
not under `src/`), mirroring the buffer one; the layout arguments of the
image lock methods are kept for signature fidelity but the spec describes
only the exclusive/shared range-lock discipline. -/
structure ImageState where
  locks : List (DRange × Bool)
deriving DecidableEq

/-- Modelled from the spec: gpu write check for an image range. -/
def ImageState.check_gpu_write (s : ImageState) (r : DRange)
    (_expected : ImageLayout) : Except AccessError Unit :=
  if s.locks.any (fun l => l.1.intersects r) then .error .AlreadyInUse else .ok ()

/-- Modelled from the spec: gpu read check for an image range. -/
def ImageState.check_gpu_read (s : ImageState) (r : DRange)
    (_expected : ImageLayout) : Except AccessError Unit :=
  if s.locks.any (fun l => l.2 && l.1.intersects r) then .error .ExclusiveDenied else .ok ()

/-- Modelled from the spec: acquiring a gpu write lock on an image range. -/
def ImageState.gpu_write_lock (s : ImageState) (r : DRange)
    (_final : ImageLayout) : ImageState :=
  ⟨(r, true) :: s.locks⟩

/-- Modelled from the spec: acquiring a gpu read lock on an image range. -/
def ImageState.gpu_read_lock (s : ImageState) (r : DRange) : ImageState :=
  ⟨(r, false) :: s.locks⟩

/-- The live states of all resources, indexed by resource identity: the
shared mutable state `lock_submit` checks and then mutates. -/
structure World where
  buffers : Nat → BufferState
  images : Nat → ImageState

/-- The pending-work `GpuFuture` abstraction, reduced to the two access
checks `lock_submit` consults. -/
structure GpuFuture where
  check_buffer_access : Nat → DRange → Bool → Except AccessCheckError (Option (Nat × Nat))
  check_image_access :
    Nat → DRange → Bool → ImageLayout → Except AccessCheckError (Option (Nat × Nat))

/-- The `CommandBufferExecError::AccessError` variant: the error `lock_submit`
reports, carrying diagnostic context. -/
structure CommandBufferExecError where
  error : AccessError
  command_name : String
  command_param : String
  command_offset : Nat
deriving DecidableEq

/-- Outcome of an error path in `lock_submit`: either the reported access
error, or `panic` when Rust's `resource_uses[0]` / `commands[i]` indexing
would panic. -/
inductive LockErr where
  | access (e : CommandBufferExecError)
  | panic
deriving DecidableEq

/-- Builds the `CommandBufferExecError` of `lock_submit`'s buffer error paths:
`resource_uses[0]` gives the use, `commands[use.command_index].name()` the
command name; out-of-bounds indexing is Rust panic. -/
def mkBufferAccessErr (cb : SyncCommandBuffer) (uses : List BufferUse)
    (err : AccessError) : LockErr :=
  match uses with
  | [] => .panic
  | u :: _ =>
    match cb.commands.get? u.command_index with
    | none => .panic
    | some cname => .access ⟨err, cname, u.name, u.command_index⟩

/-- Builds the `CommandBufferExecError` of `lock_submit`'s image error paths. -/
def mkImageAccessErr (cb : SyncCommandBuffer) (uses : List ImageUse)
    (err : AccessError) : LockErr :=
  match uses with
  | [] => .panic
  | u :: _ =>
    match cb.commands.get? u.command_index with
    | none => .panic
    | some cname => .access ⟨err, cname, u.name, u.command_index⟩

/-- One iteration of `lock_submit`'s buffer check loop: consult the future;
on `Denied` report; on `Unknown` fall back to the gpu lock check. -/
def checkBufferEntry (cb : SyncCommandBuffer) (fut : GpuFuture) (bstate : BufferState)
    (b : Nat) (e : DRange × BufferFinalState) : Option LockErr :=
  match fut.check_buffer_access b e.1 e.2.exclusive with
  | .error (.Denied err) => some (mkBufferAccessErr cb e.2.resource_uses err)
  | .error .Unknown =>
    match (if e.2.exclusive then bstate.check_gpu_write e.1 else bstate.check_gpu_read e.1) with
    | .error err => some (mkBufferAccessErr cb e.2.resource_uses err)
    | .ok _ => none
  | .ok _ => none

/-- The buffer check loop over one buffer's tracked ranges. -/
def checkBufferEntries (cb : SyncCommandBuffer) (fut : GpuFuture) (bstate : BufferState)
    (b : Nat) : List (DRange × BufferFinalState) → Option LockErr
  | [] => none
  | e :: rest =>
    match checkBufferEntry cb fut bstate b e with
    | some err => some err
    | none => checkBufferEntries cb fut bstate b rest

/-- The check phase over all tracked buffers. -/
def checkAllBuffers (cb : SyncCommandBuffer) (fut : GpuFuture) (w : World) :
    List (Nat × RangeMap BufferFinalState) → Option LockErr
  | [] => none
  | (b, rm) :: rest =>
    match checkBufferEntries cb fut (w.buffers b) b rm.iter with
    | some err => some err
    | none => checkAllBuffers cb fut w rest

/-- One iteration of `lock_submit`'s image check loop. -/
def checkImageEntry (cb : SyncCommandBuffer) (fut : GpuFuture) (istate : ImageState)
    (i : Nat) (e : DRange × ImageFinalState) : Option LockErr :=
  match fut.check_image_access i e.1 e.2.exclusive e.2.initial_layout with
  | .error (.Denied err) => some (mkImageAccessErr cb e.2.resource_uses err)
  | .error .Unknown =>
    match (if e.2.exclusive then istate.check_gpu_write e.1 e.2.initial_layout
           else istate.check_gpu_read e.1 e.2.initial_layout) with
    | .error err => some (mkImageAccessErr cb e.2.resource_uses err)
    | .ok _ => none
  | .ok _ => none

/-- The image check loop over one image's tracked ranges. -/
def checkImageEntries (cb : SyncCommandBuffer) (fut : GpuFuture) (istate : ImageState)
    (i : Nat) : List (DRange × ImageFinalState) → Option LockErr
  | [] => none
  | e :: rest =>
    match checkImageEntry cb fut istate i e with
    | some err => some err
    | none => checkImageEntries cb fut istate i rest

/-- The check phase over all tracked images. -/
def checkAllImages (cb : SyncCommandBuffer) (fut : GpuFuture) (w : World) :
    List (Nat × RangeMap ImageFinalState) → Option LockErr
  | [] => none
  | (i, rm) :: rest =>
    match checkImageEntries cb fut (w.images i) i rm.iter with
    | some err => some err
    | none => checkAllImages cb fut w rest

/-- Replaces one buffer's live state in the world. -/
def World.updateBuffer (w : World) (b : Nat) (s : BufferState) : World :=
  { w with buffers := fun x => if x = b then s else w.buffers x }

/-- Replaces one image's live state in the world. -/
def World.updateImage (w : World) (i : Nat) (s : ImageState) : World :=
  { w with images := fun x => if x = i then s else w.images x }

/-- The lock phase for one buffer: a gpu write lock for each exclusive
tracked range, a gpu read lock for each other range. -/
def acquireBufferLocks (entries : List (DRange × BufferFinalState))
    (s : BufferState) : BufferState :=
  entries.foldl
    (fun s e => if e.2.exclusive then s.gpu_write_lock e.1 else s.gpu_read_lock e.1) s

/-- The lock phase for one image. -/
def acquireImageLocks (entries : List (DRange × ImageFinalState))
    (s : ImageState) : ImageState :=
  entries.foldl
    (fun s e =>
      if e.2.exclusive then s.gpu_write_lock e.1 e.2.final_layout else s.gpu_read_lock e.1) s

/-- One step of the lock phase: lock every tracked range of one buffer. -/
def acquireBufferStep (w : World) (p : Nat × RangeMap BufferFinalState) : World :=
  w.updateBuffer p.1 (acquireBufferLocks p.2.iter (w.buffers p.1))

/-- One step of the lock phase: lock every tracked range of one image. -/
def acquireImageStep (w : World) (p : Nat × RangeMap ImageFinalState) : World :=
  w.updateImage p.1 (acquireImageLocks p.2.iter (w.images p.1))

/-- The lock phase of `lock_submit`, run only after every check passed. -/
def acquireAll (cb : SyncCommandBuffer) (w : World) : World :=
  cb.images2.foldl acquireImageStep (cb.buffers2.foldl acquireBufferStep w)

/-- Embedding of `SyncCommandBuffer::lock_submit`: check every tracked buffer range, then
every tracked image range; only when all checks pass, acquire the per-range
gpu locks. Returns the error (if any) together with the resulting world. -/
def SyncCommandBuffer.lock_submit (cb : SyncCommandBuffer) (fut : GpuFuture)
    (w : World) : Option LockErr × World :=
  match checkAllBuffers cb fut w cb.buffers2 with
  | some e => (some e, w)
  | none =>
    match checkAllImages cb fut w cb.images2 with
    | some e => (some e, w)
    | none => (none, acquireAll cb w)

/-- Modelled from the spec: the Synchronization Builder state (the builder
source, `synced/builder.rs`, is not under `src/`), reduced to what the
barrier-counting property needs: how many commands were recorded, the
command positions at which hazard-resolving barriers were inserted, and the
tracked access mode (exclusive = write) per buffer. -/
structure SpecBuilder where
  commands : Nat
  barriers : List Nat
  tracked : List (Nat × Bool)
deriving DecidableEq

/-- Modelled from the spec: a new access conflicts with the tracked state
when the buffer was already accessed and either access is a write. -/
def specConflicts (tracked : List (Nat × Bool)) (a : Nat × Bool) : Bool :=
  match assocFind tracked a.1 with
  | none => false
  | some prevExclusive => prevExclusive || a.2

/-- Modelled from the spec: the tracked state after an access replaces the
buffer's recorded access mode with the new one. -/
def specUpdateTracked (tracked : List (Nat × Bool)) (a : Nat × Bool) : List (Nat × Bool) :=
  match tracked with
  | [] => [a]
  | p :: rest => if p.1 = a.1 then a :: rest else p :: specUpdateTracked rest a

/-- Modelled from the spec: recording one command that declares the given
buffer accesses inserts a barrier before the command exactly when some
declared access conflicts with the already-tracked state, then merges the
accesses into the tracked state. -/
def SpecBuilder.addCommand (b : SpecBuilder) (accesses : List (Nat × Bool)) : SpecBuilder :=
  { commands := b.commands + 1
    barriers :=
      if accesses.any (specConflicts b.tracked) then b.barriers ++ [b.commands] else b.barriers
    tracked := accesses.foldl specUpdateTracked b.tracked }

/-- Modelled from the spec: one `execute_commands` batch records a single
command declaring the accesses of all its secondary command buffers; hazards
between secondaries of the same batch are not checked against each other. -/
def SpecBuilder.executeBatch (b : SpecBuilder)
    (secondaries : List (List (Nat × Bool))) : SpecBuilder :=
  b.addCommand secondaries.flatten

/-- The builder before any command is recorded. -/
def SpecBuilder.empty : SpecBuilder :=
  ⟨0, [], []⟩

/-- Modelled from the spec: one buffer access declared by a recorded command
(resource handle, range, diagnostic parameter name, access mode, stage and
access-flag bit sets). -/
structure BufferDecl where
  buffer : Nat
  range : DRange
  param : String
  exclusive : Bool
  stages : Nat
  access : Nat
deriving DecidableEq

/-- Modelled from the spec: one image access declared by a recorded command. -/
structure ImageDecl where
  image : Nat
  range : DRange
  param : String
  exclusive : Bool
  stages : Nat
  access : Nat
  initial_layout : ImageLayout
  final_layout : ImageLayout
deriving DecidableEq

/-- Modelled from the spec: a recorded command: a diagnostic name plus the
resource accesses it declares. -/
structure RecordedCommand where
  cname : String
  buffer_uses : List BufferDecl
  image_uses : List ImageDecl
deriving DecidableEq

/-- Modelled from the spec: recording buffer access `d` of command `i` into
one buffer's tracked entries: first use of a range creates a state carrying
the use; a later intersecting use accumulates onto the use list, merging
when both accesses are reads and replacing the state on a hazard. -/
def recordBufferEntry (i : Nat) (d : BufferDecl) :
    List (DRange × BufferFinalState) → List (DRange × BufferFinalState)
  | [] => [(d.range, ⟨[⟨i, d.param⟩], d.stages, d.access, d.exclusive⟩)]
  | e :: rest =>
    if e.1.intersects d.range then
      if !e.2.exclusive && !d.exclusive then
        (e.1, ⟨e.2.resource_uses ++ [⟨i, d.param⟩], e.2.final_stages ||| d.stages,
          e.2.final_access ||| d.access, false⟩) :: rest
      else
        (e.1, ⟨e.2.resource_uses ++ [⟨i, d.param⟩], d.stages, d.access, d.exclusive⟩) :: rest
    else
      e :: recordBufferEntry i d rest

/-- Modelled from the spec: recording image access `d` of command `i` into
one image's tracked entries; compatible read/read accesses with an unchanged
layout merge, anything else replaces the state. -/
def recordImageEntry (i : Nat) (d : ImageDecl) :
    List (DRange × ImageFinalState) → List (DRange × ImageFinalState)
  | [] => [(d.range, ⟨[⟨i, d.param⟩], d.stages, d.access, d.exclusive,
      d.initial_layout, d.final_layout⟩)]
  | e :: rest =>
    if e.1.intersects d.range then
      if !e.2.exclusive && !d.exclusive && e.2.final_layout = d.final_layout then
        (e.1, ⟨e.2.resource_uses ++ [⟨i, d.param⟩], e.2.final_stages ||| d.stages,
          e.2.final_access ||| d.access, false, e.2.initial_layout, e.2.final_layout⟩) :: rest
      else
        (e.1, ⟨e.2.resource_uses ++ [⟨i, d.param⟩], d.stages, d.access, d.exclusive,
          e.2.initial_layout, d.final_layout⟩) :: rest
    else
      e :: recordImageEntry i d rest

/-- Modelled from the spec: recording a buffer access into the per-buffer map. -/
def recordBufferDecl (i : Nat) (d : BufferDecl) :
    List (Nat × RangeMap BufferFinalState) → List (Nat × RangeMap BufferFinalState)
  | [] => [(d.buffer, ⟨recordBufferEntry i d []⟩)]
  | (b, rm) :: rest =>
    if b = d.buffer then (b, ⟨recordBufferEntry i d rm.entries⟩) :: rest
    else (b, rm) :: recordBufferDecl i d rest

/-- Modelled from the spec: recording an image access into the per-image map. -/
def recordImageDecl (i : Nat) (d : ImageDecl) :
    List (Nat × RangeMap ImageFinalState) → List (Nat × RangeMap ImageFinalState)
  | [] => [(d.image, ⟨recordImageEntry i d []⟩)]
  | (im, rm) :: rest =>
    if im = d.image then (im, ⟨recordImageEntry i d rm.entries⟩) :: rest
    else (im, rm) :: recordImageDecl i d rest

/-- Modelled from the spec: appending one recorded command (with sequence
index `i`) to a command buffer under construction. -/
def buildCommand (i : Nat) (c : RecordedCommand) (cb : SyncCommandBuffer) :
    SyncCommandBuffer :=
  { cb with
    commands := cb.commands ++ [c.cname]
    buffers2 := c.buffer_uses.foldl (fun m d => recordBufferDecl i d m) cb.buffers2
    images2 := c.image_uses.foldl (fun m d => recordImageDecl i d m) cb.images2 }

/-- Modelled from the spec: finalizing a command sequence into a
`SyncCommandBuffer` (barrier bookkeeping is carried by `SpecBuilder` above;
here only the tracked state maps matter). -/
def buildFromSpec (cmds : List RecordedCommand) : SyncCommandBuffer :=
  (cmds.foldl (fun (acc : Nat × SyncCommandBuffer) c => (acc.1 + 1, buildCommand acc.1 c acc.2))
    (0, ⟨[], [], [], []⟩)).2

/-- Every tracked buffer state in the map has a non-empty use list whose
command indices all lie below `n`. -/
def bufMapBounded (n : Nat) (m : List (Nat × RangeMap BufferFinalState)) : Prop :=
  ∀ p ∈ m, ∀ e ∈ p.2.entries,
    e.2.resource_uses ≠ [] ∧ ∀ u ∈ e.2.resource_uses, u.command_index < n

/-- Every tracked image state in the map has a non-empty use list whose
command indices all lie below `n`. -/
def imgMapBounded (n : Nat) (m : List (Nat × RangeMap ImageFinalState)) : Prop :=
  ∀ p ∈ m, ∀ e ∈ p.2.entries,
    e.2.resource_uses ≠ [] ∧ ∀ u ∈ e.2.resource_uses, u.command_index < n

/-- Well-formedness of a finalized command buffer: every tracked per-range
state has a non-empty use list and every recorded command index is a valid
index into the command list. -/
def SyncCommandBuffer.wellFormed (cb : SyncCommandBuffer) : Prop :=
  bufMapBounded cb.commands.length cb.buffers2 ∧
    imgMapBounded cb.commands.length cb.images2

instance (cb : SyncCommandBuffer) : Decidable cb.wellFormed := by
  unfold SyncCommandBuffer.wellFormed bufMapBounded imgMapBounded
  infer_instance

/-- Whether an access-check result is the `Denied` variant. -/
def isDeniedResult {α : Type} : Except AccessCheckError α → Bool
  | .error (.Denied _) => true
  | _ => false

/-- Whether an access-check result is a `Denied(UnexpectedImageLayout)` error. -/
def isLayoutDenied {α : Type} : Except AccessCheckError α → Bool
  | .error (.Denied (.UnexpectedImageLayout _ _)) => true
  | _ => false

/-- Whether an `Except` result is `Ok`. -/
def isOkResult {ε α : Type} : Except ε α → Bool
  | .ok _ => true
  | .error _ => false

/-- The stage/access-flag union recorded across a list of tracked buffer
entries, following the spec's words. -/
def unionBufferFinal (l : List (DRange × BufferFinalState)) : Nat × Nat :=
  l.foldl (fun acc e => (acc.1 ||| e.2.final_stages, acc.2 ||| e.2.final_access)) (0, 0)

/-- The stage/access-flag union recorded across a list of tracked image
entries, following the spec's words. -/
def unionImageFinal (l : List (DRange × ImageFinalState)) : Nat × Nat :=
  l.foldl (fun acc e => (acc.1 ||| e.2.final_stages, acc.2 ||| e.2.final_access)) (0, 0)

/-- Concrete fixture: a buffer range recorded with shared (read) access. -/
def bufStateShared : BufferFinalState :=
  ⟨[⟨0, "dst_buffer"⟩], 1, 2, false⟩

/-- Concrete fixture: a command buffer tracking buffer `0` over `0..4` with a
shared recorded state. -/
def cbShared : SyncCommandBuffer :=
  ⟨["fill_buffer"], [], [(0, ⟨[(⟨0, 4⟩, bufStateShared)]⟩)], []⟩

/-- Concrete fixture: an image range recorded with exclusive access and final
layout `TransferSrcOptimal`. -/
def imgStateExclusive : ImageFinalState :=
  ⟨[⟨0, "dst_image"⟩], 4, 8, true, .General, .TransferSrcOptimal⟩

/-- Concrete fixture: a command buffer tracking image `0` over `0..1`. -/
def cbLayout : SyncCommandBuffer :=
  ⟨["copy_image"], [], [], [(0, ⟨[(⟨0, 1⟩, imgStateExclusive)]⟩)]⟩

/-- Concrete fixture: an image range recorded shared, final layout `General`. -/
def imgStateSharedOk : ImageFinalState :=
  ⟨[⟨0, "src_image"⟩], 1, 1, false, .General, .General⟩

/-- Concrete fixture: an image range recorded exclusive with final layout
`TransferSrcOptimal` at `1..2`. -/
def imgStateMismatch : ImageFinalState :=
  ⟨[⟨1, "dst_image"⟩], 1, 1, true, .General, .TransferSrcOptimal⟩

/-- Concrete fixture: an image map where the first tracked range fails the
exclusivity check and a later one has a mismatching layout. -/
def cbPreempt : SyncCommandBuffer :=
  ⟨["cmd_a", "cmd_b"], [], [],
    [(0, ⟨[(⟨0, 1⟩, imgStateSharedOk), (⟨1, 2⟩, imgStateMismatch)]⟩)]⟩

/-- Concrete fixture: a command buffer tracking image `0` with one shared
range whose final layout is `General`. -/
def cbImgShared : SyncCommandBuffer :=
  ⟨["cmd_a"], [], [], [(0, ⟨[(⟨0, 1⟩, imgStateSharedOk)]⟩)]⟩

/-- Concrete fixture: a pending-work future that grants every access. -/
def futOk : GpuFuture :=
  ⟨fun _ _ _ => .ok none, fun _ _ _ _ => .ok none⟩

/-- Concrete fixture: a pending-work future that answers `Unknown` always. -/
def futUnknown : GpuFuture :=
  ⟨fun _ _ _ => .error .Unknown, fun _ _ _ _ => .error .Unknown⟩

/-- Concrete fixture: a pending-work future that denies every access. -/
def futDenied : GpuFuture :=
  ⟨fun _ _ _ => .error (.Denied .AlreadyInUse), fun _ _ _ _ => .error (.Denied .AlreadyInUse)⟩

/-- Concrete fixture: a world with no gpu lock held anywhere. -/
def worldFree : World :=
  ⟨fun _ => ⟨[]⟩, fun _ => ⟨[]⟩⟩

/-- Concrete fixture: an image lock state holding an exclusive lock on `0..1`. -/
def imgStateLocked : ImageState :=
  ⟨[(⟨0, 1⟩, true)]⟩

theorem tryFoldBuffer_all_ok (excl : Bool) (l : List (DRange × BufferFinalState)) :
    ∀ acc : Nat × Nat,
      (∀ e ∈ l, ¬(e.2.exclusive = false ∧ excl = true)) →
      tryFoldBuffer excl l acc =
        .ok (l.foldl (fun acc e => (acc.1 ||| e.2.final_stages, acc.2 ||| e.2.final_access)) acc) := by
  induction l with
  | nil => intro acc _; rfl
  | cons e rest ih =>
    intro acc h
    obtain ⟨r, st⟩ := e
    obtain ⟨s, a⟩ := acc
    have hcond : (!st.exclusive && excl) = false := by
      have hh := h (r, st) (by simp)
      cases hst : st.exclusive <;> cases hexcl : excl <;> simp_all
    simp only [tryFoldBuffer, hcond, Bool.false_eq_true, if_false, List.foldl_cons]
    exact ih _ (fun e he => h e (List.mem_cons_of_mem _ he))

theorem tryFoldBuffer_shared_unknown (l : List (DRange × BufferFinalState)) :
    ∀ acc : Nat × Nat,
      (∃ e ∈ l, e.2.exclusive = false) →
      tryFoldBuffer true l acc = .error .Unknown := by
  induction l with
  | nil => intro acc h; obtain ⟨e, he, _⟩ := h; exact absurd he (List.not_mem_nil e)
  | cons e rest ih =>
    intro acc h
    obtain ⟨r, st⟩ := e
    obtain ⟨s, a⟩ := acc
    by_cases hst : st.exclusive = false
    · simp [tryFoldBuffer, hst]
    · have hst' : st.exclusive = true := by
        cases hb : st.exclusive
        · exact absurd hb hst
        · rfl
      simp only [tryFoldBuffer, hst', Bool.not_true, Bool.false_and, Bool.false_eq_true, if_false]
      apply ih
      obtain ⟨e, he, hee⟩ := h
      rcases List.mem_cons.mp he with h1 | h2
      · rw [h1] at hee; exact absurd hee hst
      · exact ⟨e, h2, hee⟩

theorem tryFoldImage_all_ok (excl : Bool) (expected : ImageLayout)
    (l : List (DRange × ImageFinalState)) :
    ∀ acc : Nat × Nat,
      (∀ e ∈ l, (expected = .Undefined ∨ e.2.final_layout = expected) ∧
        ¬(e.2.exclusive = false ∧ excl = true)) →
      tryFoldImage excl expected l acc =
        .ok (l.foldl (fun acc e => (acc.1 ||| e.2.final_stages, acc.2 ||| e.2.final_access)) acc) := by
  induction l with
  | nil => intro acc _; rfl
  | cons e rest ih =>
    intro acc h
    obtain ⟨r, st⟩ := e
    obtain ⟨s, a⟩ := acc
    have hh := h (r, st) (by simp)
    have hlay : ¬(expected ≠ ImageLayout.Undefined ∧ st.final_layout ≠ expected) := by
      rcases hh.1 with h1 | h2
      · intro hc; exact hc.1 h1
      · intro hc; exact hc.2 h2
    have hcond : (!st.exclusive && excl) = false := by
      have hh2 := hh.2
      cases hst : st.exclusive <;> cases hexcl : excl <;> simp_all
    simp only [tryFoldImage, if_neg hlay, hcond, Bool.false_eq_true, if_false, List.foldl_cons]
    exact ih _ (fun e he => h e (List.mem_cons_of_mem _ he))

theorem tryFoldImage_shared_unknown (expected : ImageLayout)
    (l : List (DRange × ImageFinalState)) :
    ∀ acc : Nat × Nat,
      (∀ e ∈ l, expected = .Undefined ∨ e.2.final_layout = expected) →
      (∃ e ∈ l, e.2.exclusive = false) →
      tryFoldImage true expected l acc = .error .Unknown := by
  induction l with
  | nil => intro acc _ h; obtain ⟨e, he, _⟩ := h; exact absurd he (List.not_mem_nil e)
  | cons e rest ih =>
    intro acc hlay h
    obtain ⟨r, st⟩ := e
    obtain ⟨s, a⟩ := acc
    have hlayhead : ¬(expected ≠ ImageLayout.Undefined ∧ st.final_layout ≠ expected) := by
      rcases hlay (r, st) (by simp) with h1 | h2
      · intro hc; exact hc.1 h1
      · intro hc; exact hc.2 h2
    by_cases hst : st.exclusive = false
    · simp [tryFoldImage, if_neg hlayhead, hst]
    · have hst' : st.exclusive = true := by
        cases hb : st.exclusive
        · exact absurd hb hst
        · rfl
      simp only [tryFoldImage, if_neg hlayhead, hst', Bool.not_true, Bool.false_and,
        Bool.false_eq_true, if_false]
      apply ih
      · exact fun e he => hlay e (List.mem_cons_of_mem _ he)
      · obtain ⟨e, he, hee⟩ := h
        rcases List.mem_cons.mp he with h1 | h2
        · rw [h1] at hee; exact absurd hee hst
        · exact ⟨e, h2, hee⟩

theorem tryFoldImage_mismatch_fails (excl : Bool) (expected : ImageLayout)
    (l : List (DRange × ImageFinalState)) :
    ∀ acc : Nat × Nat,
      expected ≠ .Undefined →
      (∃ e ∈ l, e.2.final_layout ≠ expected) →
      ∃ err, tryFoldImage excl expected l acc = .error err := by
  induction l with
  | nil => intro acc _ h; obtain ⟨e, he, _⟩ := h; exact absurd he (List.not_mem_nil e)
  | cons e rest ih =>
    intro acc hexp h
    obtain ⟨r, st⟩ := e
    obtain ⟨s, a⟩ := acc
    by_cases hlay : st.final_layout = expected
    · have hlayhead : ¬(expected ≠ ImageLayout.Undefined ∧ st.final_layout ≠ expected) := by
        intro hc; exact hc.2 hlay
      by_cases hcond : (!st.exclusive && excl) = true
      · exact ⟨.Unknown, by simp [tryFoldImage, if_neg hlayhead, hcond]⟩
      · have hcond' : (!st.exclusive && excl) = false := by
          cases hb : (!st.exclusive && excl)
          · rfl
          · exact absurd hb hcond
        simp only [tryFoldImage, if_neg hlayhead, hcond', Bool.false_eq_true, if_false]
        apply ih _ hexp
        obtain ⟨e, he, hee⟩ := h
        rcases List.mem_cons.mp he with h1 | h2
        · rw [h1] at hee; exact absurd hlay hee
        · exact ⟨e, h2, hee⟩
    · exact ⟨.Denied (.UnexpectedImageLayout st.final_layout expected),
        by simp [tryFoldImage, hexp, hlay]⟩

theorem tryFoldImage_first_mismatch (excl : Bool) (expected : ImageLayout)
    (pre : List (DRange × ImageFinalState)) :
    ∀ (r : DRange) (st : ImageFinalState) (tail : List (DRange × ImageFinalState))
      (acc : Nat × Nat),
      (∀ e ∈ pre, e.2.final_layout = expected ∧ ¬(e.2.exclusive = false ∧ excl = true)) →
      expected ≠ .Undefined →
      st.final_layout ≠ expected →
      tryFoldImage excl expected (pre ++ (r, st) :: tail) acc =
        .error (.Denied (.UnexpectedImageLayout st.final_layout expected)) := by
  induction pre with
  | nil =>
    intro r st tail acc _ hexp hmis
    simp [tryFoldImage, hexp, hmis]
  | cons e rest ih =>
    intro r st tail acc h hexp hmis
    obtain ⟨r0, st0⟩ := e
    obtain ⟨s, a⟩ := acc
    have hh := h (r0, st0) (by simp)
    have hlayhead : ¬(expected ≠ ImageLayout.Undefined ∧ st0.final_layout ≠ expected) := by
      intro hc; exact hc.2 hh.1
    have hcond : (!st0.exclusive && excl) = false := by
      have hh2 := hh.2
      cases hst : st0.exclusive <;> cases hexcl : excl <;> simp_all
    simp only [List.cons_append, tryFoldImage, if_neg hlayhead, hcond, Bool.false_eq_true,
      if_false]
    exact ih r st tail _ (fun e he => h e (List.mem_cons_of_mem _ he)) hexp hmis

theorem tryFoldImage_undefined_not_layout_denied (excl : Bool)
    (l : List (DRange × ImageFinalState)) :
    ∀ acc : Nat × Nat, isLayoutDenied (tryFoldImage excl .Undefined l acc) = false := by
  induction l with
  | nil => intro acc; rfl
  | cons e rest ih =>
    intro acc
    obtain ⟨r, st⟩ := e
    obtain ⟨s, a⟩ := acc
    have hlayhead : ¬(ImageLayout.Undefined ≠ ImageLayout.Undefined ∧
        st.final_layout ≠ ImageLayout.Undefined) := by
      intro hc; exact hc.1 rfl
    by_cases hcond : (!st.exclusive && excl) = true
    · simp [tryFoldImage, if_neg hlayhead, hcond, isLayoutDenied]
    · have hcond' : (!st.exclusive && excl) = false := by
        cases hb : (!st.exclusive && excl)
        · rfl
        · exact absurd hb hcond
      simp only [tryFoldImage, if_neg hlayhead, hcond', Bool.false_eq_true, if_false]
      exact ih _

theorem isLayoutDenied_map (x : Except AccessCheckError (Nat × Nat)) :
    isLayoutDenied (x.map Option.some) = isLayoutDenied x := by
  cases x with
  | ok v => rfl
  | error e =>
    cases e with
    | Unknown => rfl
    | Denied err => cases err <;> rfl

/-- C10: with `expected_layout = Undefined`, `check_image_access` skips the
layout validation entirely: the result is never a
`Denied(UnexpectedImageLayout)` error, whatever the recorded final layouts. -/
theorem check_image_access_undefined_skips_layout (cb : SyncCommandBuffer) (img : Nat)
    (q : DRange) (excl : Bool) :
    isLayoutDenied (cb.check_image_access img q excl .Undefined) = false := by
  unfold SyncCommandBuffer.check_image_access
  cases h : assocFind cb.images2 img with
  | none => simp [isLayoutDenied]
  | some rm =>
    simp only [isLayoutDenied_map]
    exact tryFoldImage_undefined_not_layout_denied excl (rm.range q) (0, 0)

/-- C9: when the queried resource is tracked but the query range intersects
no tracked entry, `check_buffer_access` and `check_image_access` return
`Ok(Some)` with empty stage and access sets, not `Err(Unknown)`. -/
theorem check_access_gap_returns_empty :
    (∀ (cb : SyncCommandBuffer) (b : Nat) (rm : RangeMap BufferFinalState) (q : DRange)
        (excl : Bool),
      assocFind cb.buffers2 b = some rm → rm.range q = [] →
      cb.check_buffer_access b q excl = .ok (some (0, 0))) ∧
    (∀ (cb : SyncCommandBuffer) (i : Nat) (rm : RangeMap ImageFinalState) (q : DRange)
        (excl : Bool) (expected : ImageLayout),
      assocFind cb.images2 i = some rm → rm.range q = [] →
      cb.check_image_access i q excl expected = .ok (some (0, 0))) := by
  constructor
  · intro cb b rm q excl h1 h2
    unfold SyncCommandBuffer.check_buffer_access
    simp only [h1, h2]
    rfl
  · intro cb i rm q excl expected h1 h2
    unfold SyncCommandBuffer.check_image_access
    simp only [h1, h2]
    rfl

/-- Witness for the gap theorem: buffer `0` of `cbShared` is tracked only
over `0..4`, so querying `10..12` yields the empty union; likewise for the
image fixture. -/
theorem check_access_gap_returns_empty_witness :
    cbShared.check_buffer_access 0 ⟨10, 12⟩ true = .ok (some (0, 0)) ∧
    cbLayout.check_image_access 0 ⟨5, 6⟩ true .General = .ok (some (0, 0)) :=
  ⟨check_access_gap_returns_empty.1 cbShared 0 _ ⟨10, 12⟩ true rfl rfl,
   check_access_gap_returns_empty.2 cbLayout 0 _ ⟨5, 6⟩ true .General rfl rfl⟩

/-- C2 counterexample: requesting exclusive access over a range whose
recorded final state is shared makes `check_buffer_access` return
`Err(Unknown)`, not an error with the `Denied` variant as the claim states. -/
theorem check_buffer_access_shared_not_denied :
    cbShared.check_buffer_access 0 ⟨0, 4⟩ true = .error .Unknown ∧
    isDeniedResult (cbShared.check_buffer_access 0 ⟨0, 4⟩ true) = false :=
  ⟨rfl, rfl⟩

/-- C2 (amended): when exclusive access is requested over a tracked range
whose recorded state is shared, `check_buffer_access` and
`check_image_access` return `Err(Unknown)` (for images, provided the layout
validation of the ranges passes); the `Denied` variant is reserved for image
layout mismatches. -/
theorem check_access_exclusivity_conflict_unknown :
    (∀ (cb : SyncCommandBuffer) (b : Nat) (rm : RangeMap BufferFinalState) (q : DRange),
      assocFind cb.buffers2 b = some rm →
      (∃ e ∈ rm.range q, e.2.exclusive = false) →
      cb.check_buffer_access b q true = .error .Unknown) ∧
    (∀ (cb : SyncCommandBuffer) (i : Nat) (rm : RangeMap ImageFinalState) (q : DRange)
        (expected : ImageLayout),
      assocFind cb.images2 i = some rm →
      (∀ e ∈ rm.range q, expected = .Undefined ∨ e.2.final_layout = expected) →
      (∃ e ∈ rm.range q, e.2.exclusive = false) →
      cb.check_image_access i q true expected = .error .Unknown) := by
  constructor
  · intro cb b rm q h1 h2
    unfold SyncCommandBuffer.check_buffer_access
    simp only [h1]
    rw [tryFoldBuffer_shared_unknown (rm.range q) (0, 0) h2]
    rfl
  · intro cb i rm q expected h1 hlay h2
    unfold SyncCommandBuffer.check_image_access
    simp only [h1]
    rw [tryFoldImage_shared_unknown expected (rm.range q) (0, 0) hlay h2]
    rfl

/-- Witness for the amended exclusivity theorem at the concrete fixtures. -/
theorem check_access_exclusivity_conflict_unknown_witness :
    cbShared.check_buffer_access 0 ⟨0, 4⟩ true = .error .Unknown ∧
    cbImgShared.check_image_access 0 ⟨0, 1⟩ true .General = .error .Unknown :=
  ⟨check_access_exclusivity_conflict_unknown.1 cbShared 0 _ ⟨0, 4⟩ rfl (by decide),
   check_access_exclusivity_conflict_unknown.2 cbImgShared 0 _ ⟨0, 1⟩ .General rfl
     (by decide) (by decide)⟩

/-- C6 counterexample: image `0` of `cbLayout` is tracked with a state whose
exclusivity is compatible with the request, yet the call returns a `Denied`
layout error instead of the claimed `Ok(Some)` union, because the expected
layout `General` differs from the recorded final layout. -/
theorem check_image_access_layout_denied_not_ok :
    cbLayout.check_image_access 0 ⟨0, 1⟩ true .General =
      .error (.Denied (.UnexpectedImageLayout .TransferSrcOptimal .General)) ∧
    isOkResult (cbLayout.check_image_access 0 ⟨0, 1⟩ true .General) = false :=
  ⟨rfl, rfl⟩

/-- C6 (amended): when every tracked range intersecting the query has a
recorded state compatible with the requested exclusivity — and, for images,
the expected layout is `Undefined` or matches every intersecting range's
final layout — the checks return `Ok(Some(u))` with `u` the bitwise union of
the intersecting entries' final stages and final access flags; an untracked
resource yields `Err(Unknown)`. -/
theorem check_access_union_when_compatible :
    (∀ (cb : SyncCommandBuffer) (b : Nat) (rm : RangeMap BufferFinalState) (q : DRange)
        (excl : Bool),
      assocFind cb.buffers2 b = some rm →
      (∀ e ∈ rm.range q, ¬(e.2.exclusive = false ∧ excl = true)) →
      cb.check_buffer_access b q excl = .ok (some (unionBufferFinal (rm.range q)))) ∧
    (∀ (cb : SyncCommandBuffer) (b : Nat) (q : DRange) (excl : Bool),
      assocFind cb.buffers2 b = none →
      cb.check_buffer_access b q excl = .error .Unknown) ∧
    (∀ (cb : SyncCommandBuffer) (i : Nat) (rm : RangeMap ImageFinalState) (q : DRange)
        (excl : Bool) (expected : ImageLayout),
      assocFind cb.images2 i = some rm →
      (∀ e ∈ rm.range q, (expected = .Undefined ∨ e.2.final_layout = expected) ∧
        ¬(e.2.exclusive = false ∧ excl = true)) →
      cb.check_image_access i q excl expected = .ok (some (unionImageFinal (rm.range q)))) ∧
    (∀ (cb : SyncCommandBuffer) (i : Nat) (q : DRange) (excl : Bool)
        (expected : ImageLayout),
      assocFind cb.images2 i = none →
      cb.check_image_access i q excl expected = .error .Unknown) := by
  refine ⟨?_, ?_, ?_, ?_⟩
  · intro cb b rm q excl h1 h2
    unfold SyncCommandBuffer.check_buffer_access
    simp only [h1]
    rw [tryFoldBuffer_all_ok excl (rm.range q) (0, 0) h2]
    rfl
  · intro cb b q excl h1
    unfold SyncCommandBuffer.check_buffer_access
    simp only [h1]
  · intro cb i rm q excl expected h1 h2
    unfold SyncCommandBuffer.check_image_access
    simp only [h1]
    rw [tryFoldImage_all_ok excl expected (rm.range q) (0, 0) h2]
    rfl
  · intro cb i q excl expected h1
    unfold SyncCommandBuffer.check_image_access
    simp only [h1]

/-- Witness for the union theorem at the concrete fixtures: a compatible
shared read on the buffer, an untracked buffer, a compatible exclusive image
access with matching layout, and an untracked image. -/
theorem check_access_union_when_compatible_witness :
    cbShared.check_buffer_access 0 ⟨0, 4⟩ false = .ok (some (1, 2)) ∧
    cbShared.check_buffer_access 5 ⟨0, 4⟩ true = .error .Unknown ∧
    cbLayout.check_image_access 0 ⟨0, 1⟩ true .TransferSrcOptimal = .ok (some (4, 8)) ∧
    cbLayout.check_image_access 7 ⟨0, 1⟩ false .General = .error .Unknown :=
  ⟨check_access_union_when_compatible.1 cbShared 0 _ ⟨0, 4⟩ false rfl (by decide),
   check_access_union_when_compatible.2.1 cbShared 5 ⟨0, 4⟩ true rfl,
   check_access_union_when_compatible.2.2.1 cbLayout 0 _ ⟨0, 1⟩ true .TransferSrcOptimal rfl
     (by decide),
   check_access_union_when_compatible.2.2.2 cbLayout 7 ⟨0, 1⟩ false .General rfl⟩

/-- C5 counterexample: image `0` of `cbPreempt` has a tracked range (`1..2`)
whose recorded final layout differs from the expected `General`, yet the
call fails with `Err(Unknown)` — the earlier range's exclusivity failure
preempts the layout mismatch — not with `Denied(UnexpectedImageLayout)` as
the claim states. -/
theorem check_image_access_mismatch_preempted :
    cbPreempt.check_image_access 0 ⟨0, 2⟩ true .General = .error .Unknown ∧
    isLayoutDenied (cbPreempt.check_image_access 0 ⟨0, 2⟩ true .General) = false :=
  ⟨rfl, rfl⟩

/-- C5 (amended): whenever the expected layout is not `Undefined` and differs
from the recorded final layout of some tracked range intersecting the query,
the call fails; and when every intersecting range before the mismatching one
passes both the layout and the exclusivity check, it fails with
`Denied(UnexpectedImageLayout)` reporting the recorded layout as allowed and
the expected layout as requested. -/
theorem check_image_access_layout_mismatch_denied :
    (∀ (cb : SyncCommandBuffer) (i : Nat) (rm : RangeMap ImageFinalState) (q : DRange)
        (excl : Bool) (expected : ImageLayout),
      assocFind cb.images2 i = some rm →
      expected ≠ .Undefined →
      (∃ e ∈ rm.range q, e.2.final_layout ≠ expected) →
      ∃ err, cb.check_image_access i q excl expected = .error err) ∧
    (∀ (cb : SyncCommandBuffer) (i : Nat) (rm : RangeMap ImageFinalState) (q : DRange)
        (excl : Bool) (expected : ImageLayout) (pre : List (DRange × ImageFinalState))
        (r : DRange) (st : ImageFinalState) (tail : List (DRange × ImageFinalState)),
      assocFind cb.images2 i = some rm →
      rm.range q = pre ++ (r, st) :: tail →
      (∀ e ∈ pre, e.2.final_layout = expected ∧ ¬(e.2.exclusive = false ∧ excl = true)) →
      expected ≠ .Undefined →
      st.final_layout ≠ expected →
      cb.check_image_access i q excl expected =
        .error (.Denied (.UnexpectedImageLayout st.final_layout expected))) := by
  constructor
  · intro cb i rm q excl expected h1 hexp h2
    unfold SyncCommandBuffer.check_image_access
    simp only [h1]
    obtain ⟨err, herr⟩ := tryFoldImage_mismatch_fails excl expected (rm.range q) (0, 0) hexp h2
    exact ⟨err, by rw [herr]; rfl⟩
  · intro cb i rm q excl expected pre r st tail h1 h2 hpre hexp hmis
    unfold SyncCommandBuffer.check_image_access
    simp only [h1, h2]
    rw [tryFoldImage_first_mismatch excl expected pre r st tail (0, 0) hpre hexp hmis]
    rfl

/-- Witness for the layout-mismatch theorem: the preempted fixture still
fails (first conjunct), and with no preceding failing range the mismatch is
reported as `Denied(UnexpectedImageLayout)` (second conjunct). -/
theorem check_image_access_layout_mismatch_denied_witness :
    (∃ err, cbPreempt.check_image_access 0 ⟨0, 2⟩ true .General = .error err) ∧
    cbLayout.check_image_access 0 ⟨0, 1⟩ true .General =
      .error (.Denied (.UnexpectedImageLayout .TransferSrcOptimal .General)) :=
  ⟨check_image_access_layout_mismatch_denied.1 cbPreempt 0 _ ⟨0, 2⟩ true .General rfl
     (by decide) (by decide),
   check_image_access_layout_mismatch_denied.2 cbLayout 0 _ ⟨0, 1⟩ true .General []
     ⟨0, 1⟩ imgStateExclusive [] rfl (by decide) (by decide) (by decide) (by decide)⟩

/-- C4: when the pending-work future answers `Unknown` for a tracked range,
`lock_submit` falls back to the resource's internal per-range lock check — a
gpu-write check when the recorded state is exclusive, a gpu-read check
otherwise — and fails for that range exactly when the fallback check fails. -/
theorem lock_submit_unknown_fallback :
    (∀ (cb : SyncCommandBuffer) (fut : GpuFuture) (bstate : BufferState) (b : Nat)
        (r : DRange) (st : BufferFinalState),
      fut.check_buffer_access b r st.exclusive = .error .Unknown →
      checkBufferEntry cb fut bstate b (r, st) =
        (match (if st.exclusive then bstate.check_gpu_write r else bstate.check_gpu_read r) with
         | .error err => some (mkBufferAccessErr cb st.resource_uses err)
         | .ok _ => none)) ∧
    (∀ (cb : SyncCommandBuffer) (fut : GpuFuture) (istate : ImageState) (i : Nat)
        (r : DRange) (st : ImageFinalState),
      fut.check_image_access i r st.exclusive st.initial_layout = .error .Unknown →
      checkImageEntry cb fut istate i (r, st) =
        (match (if st.exclusive then istate.check_gpu_write r st.initial_layout
                else istate.check_gpu_read r st.initial_layout) with
         | .error err => some (mkImageAccessErr cb st.resource_uses err)
         | .ok _ => none)) := by
  constructor
  · intro cb fut bstate b r st h
    simp only [checkBufferEntry, h]
  · intro cb fut istate i r st h
    simp only [checkImageEntry, h]

/-- Witness for the `Unknown` fallback: on a free buffer state the shared
fallback check passes and the entry check reports nothing; on an image state
already write-locked the exclusive fallback check fails and the entry check
reports the conflict with the recorded diagnostic context. -/
theorem lock_submit_unknown_fallback_witness :
    checkBufferEntry cbShared futUnknown ⟨[]⟩ 0 (⟨0, 4⟩, bufStateShared) = none ∧
    checkImageEntry cbLayout futUnknown imgStateLocked 0 (⟨0, 1⟩, imgStateExclusive) =
      some (.access ⟨.AlreadyInUse, "copy_image", "dst_image", 0⟩) :=
  ⟨lock_submit_unknown_fallback.1 cbShared futUnknown ⟨[]⟩ 0 ⟨0, 4⟩ bufStateShared rfl,
   lock_submit_unknown_fallback.2 cbLayout futUnknown imgStateLocked 0 ⟨0, 1⟩
     imgStateExclusive rfl⟩

theorem checkBufferEntries_append (cb : SyncCommandBuffer) (fut : GpuFuture)
    (bstate : BufferState) (b : Nat) (l1 l2 : List (DRange × BufferFinalState)) :
    checkBufferEntries cb fut bstate b (l1 ++ l2) =
      (match checkBufferEntries cb fut bstate b l1 with
       | some e => some e
       | none => checkBufferEntries cb fut bstate b l2) := by
  induction l1 with
  | nil => rfl
  | cons e rest ih =>
    simp only [List.cons_append, checkBufferEntries]
    cases checkBufferEntry cb fut bstate b e with
    | some err => rfl
    | none => exact ih

theorem checkImageEntries_append (cb : SyncCommandBuffer) (fut : GpuFuture)
    (istate : ImageState) (i : Nat) (l1 l2 : List (DRange × ImageFinalState)) :
    checkImageEntries cb fut istate i (l1 ++ l2) =
      (match checkImageEntries cb fut istate i l1 with
       | some e => some e
       | none => checkImageEntries cb fut istate i l2) := by
  induction l1 with
  | nil => rfl
  | cons e rest ih =>
    simp only [List.cons_append, checkImageEntries]
    cases checkImageEntry cb fut istate i e with
    | some err => rfl
    | none => exact ih

theorem checkAllBuffers_append (cb : SyncCommandBuffer) (fut : GpuFuture) (w : World)
    (l1 l2 : List (Nat × RangeMap BufferFinalState)) :
    checkAllBuffers cb fut w (l1 ++ l2) =
      (match checkAllBuffers cb fut w l1 with
       | some e => some e
       | none => checkAllBuffers cb fut w l2) := by
  induction l1 with
  | nil => rfl
  | cons p rest ih =>
    obtain ⟨b, rm⟩ := p
    simp only [List.cons_append, checkAllBuffers]
    cases checkBufferEntries cb fut (w.buffers b) b rm.iter with
    | some err => rfl
    | none => exact ih

theorem checkAllImages_append (cb : SyncCommandBuffer) (fut : GpuFuture) (w : World)
    (l1 l2 : List (Nat × RangeMap ImageFinalState)) :
    checkAllImages cb fut w (l1 ++ l2) =
      (match checkAllImages cb fut w l1 with
       | some e => some e
       | none => checkAllImages cb fut w l2) := by
  induction l1 with
  | nil => rfl
  | cons p rest ih =>
    obtain ⟨i, rm⟩ := p
    simp only [List.cons_append, checkAllImages]
    cases checkImageEntries cb fut (w.images i) i rm.iter with
    | some err => rfl
    | none => exact ih

theorem checkBufferEntry_denied (cb : SyncCommandBuffer) (fut : GpuFuture)
    (bstate : BufferState) (b : Nat) (r : DRange) (st : BufferFinalState)
    (e : AccessError) (h : fut.check_buffer_access b r st.exclusive = .error (.Denied e)) :
    checkBufferEntry cb fut bstate b (r, st) = some (mkBufferAccessErr cb st.resource_uses e) := by
  simp only [checkBufferEntry, h]

theorem checkImageEntry_denied (cb : SyncCommandBuffer) (fut : GpuFuture)
    (istate : ImageState) (i : Nat) (r : DRange) (st : ImageFinalState)
    (e : AccessError)
    (h : fut.check_image_access i r st.exclusive st.initial_layout = .error (.Denied e)) :
    checkImageEntry cb fut istate i (r, st) = some (mkImageAccessErr cb st.resource_uses e) := by
  simp only [checkImageEntry, h]

theorem mkBufferAccessErr_eq (cb : SyncCommandBuffer) (u : BufferUse)
    (urest : List BufferUse) (e : AccessError) (cname : String)
    (h : cb.commands.get? u.command_index = some cname) :
    mkBufferAccessErr cb (u :: urest) e = .access ⟨e, cname, u.name, u.command_index⟩ := by
  simp only [mkBufferAccessErr, h]

theorem mkImageAccessErr_eq (cb : SyncCommandBuffer) (u : ImageUse)
    (urest : List ImageUse) (e : AccessError) (cname : String)
    (h : cb.commands.get? u.command_index = some cname) :
    mkImageAccessErr cb (u :: urest) e = .access ⟨e, cname, u.name, u.command_index⟩ := by
  simp only [mkImageAccessErr, h]

/-- C3: when the pending-work future answers `Denied` for a tracked buffer or
image range (and no earlier tracked range failed first), `lock_submit`
returns an access error carrying the denial reason, the diagnostic name of
the offending command, the parameter name, and the command's sequence index,
all taken from the first recorded use of that range. -/
theorem lock_submit_denied_reports_command :
    (∀ (cb : SyncCommandBuffer) (fut : GpuFuture) (w : World)
        (bpre : List (Nat × RangeMap BufferFinalState)) (b : Nat)
        (rm : RangeMap BufferFinalState) (btail : List (Nat × RangeMap BufferFinalState))
        (epre : List (DRange × BufferFinalState)) (r : DRange) (st : BufferFinalState)
        (etail : List (DRange × BufferFinalState)) (e : AccessError) (u : BufferUse)
        (urest : List BufferUse) (cname : String),
      cb.buffers2 = bpre ++ (b, rm) :: btail →
      checkAllBuffers cb fut w bpre = none →
      rm.entries = epre ++ (r, st) :: etail →
      checkBufferEntries cb fut (w.buffers b) b epre = none →
      fut.check_buffer_access b r st.exclusive = .error (.Denied e) →
      st.resource_uses = u :: urest →
      cb.commands.get? u.command_index = some cname →
      cb.lock_submit fut w = (some (.access ⟨e, cname, u.name, u.command_index⟩), w)) ∧
    (∀ (cb : SyncCommandBuffer) (fut : GpuFuture) (w : World)
        (ipre : List (Nat × RangeMap ImageFinalState)) (i : Nat)
        (rm : RangeMap ImageFinalState) (itail : List (Nat × RangeMap ImageFinalState))
        (epre : List (DRange × ImageFinalState)) (r : DRange) (st : ImageFinalState)
        (etail : List (DRange × ImageFinalState)) (e : AccessError) (u : ImageUse)
        (urest : List ImageUse) (cname : String),
      checkAllBuffers cb fut w cb.buffers2 = none →
      cb.images2 = ipre ++ (i, rm) :: itail →
      checkAllImages cb fut w ipre = none →
      rm.entries = epre ++ (r, st) :: etail →
      checkImageEntries cb fut (w.images i) i epre = none →
      fut.check_image_access i r st.exclusive st.initial_layout = .error (.Denied e) →
      st.resource_uses = u :: urest →
      cb.commands.get? u.command_index = some cname →
      cb.lock_submit fut w = (some (.access ⟨e, cname, u.name, u.command_index⟩), w)) := by
  constructor
  · intro cb fut w bpre b rm btail epre r st etail e u urest cname
    intro hsplit hpre hentries hepre hfut huses hget
    have hentry : checkBufferEntry cb fut (w.buffers b) b (r, st) =
        some (.access ⟨e, cname, u.name, u.command_index⟩) := by
      rw [checkBufferEntry_denied cb fut (w.buffers b) b r st e hfut, huses,
        mkBufferAccessErr_eq cb u urest e cname hget]
    have hrm : checkBufferEntries cb fut (w.buffers b) b rm.iter =
        some (.access ⟨e, cname, u.name, u.command_index⟩) := by
      rw [RangeMap.iter, hentries, checkBufferEntries_append, hepre]
      simp only [checkBufferEntries, hentry]
    have hall : checkAllBuffers cb fut w cb.buffers2 =
        some (.access ⟨e, cname, u.name, u.command_index⟩) := by
      rw [hsplit, checkAllBuffers_append, hpre]
      simp only [checkAllBuffers, hrm]
    simp only [SyncCommandBuffer.lock_submit, hall]
  · intro cb fut w ipre i rm itail epre r st etail e u urest cname
    intro hbufs hsplit hpre hentries hepre hfut huses hget
    have hentry : checkImageEntry cb fut (w.images i) i (r, st) =
        some (.access ⟨e, cname, u.name, u.command_index⟩) := by
      rw [checkImageEntry_denied cb fut (w.images i) i r st e hfut, huses,
        mkImageAccessErr_eq cb u urest e cname hget]
    have hrm : checkImageEntries cb fut (w.images i) i rm.iter =
        some (.access ⟨e, cname, u.name, u.command_index⟩) := by
      rw [RangeMap.iter, hentries, checkImageEntries_append, hepre]
      simp only [checkImageEntries, hentry]
    have hall : checkAllImages cb fut w cb.images2 =
        some (.access ⟨e, cname, u.name, u.command_index⟩) := by
      rw [hsplit, checkAllImages_append, hpre]
      simp only [checkAllImages, hrm]
    simp only [SyncCommandBuffer.lock_submit, hbufs, hall]

/-- Witness for the denial-reporting theorem: the always-denying future makes
`lock_submit` of `cbShared` report command `fill_buffer`, parameter
`dst_buffer`, sequence index `0`; and, for images, `lock_submit` of
`cbLayout` (whose buffer map is empty) reports `copy_image` / `dst_image`. -/
theorem lock_submit_denied_reports_command_witness :
    cbShared.lock_submit futDenied worldFree =
      (some (.access ⟨.AlreadyInUse, "fill_buffer", "dst_buffer", 0⟩), worldFree) ∧
    cbLayout.lock_submit futDenied worldFree =
      (some (.access ⟨.AlreadyInUse, "copy_image", "dst_image", 0⟩), worldFree) :=
  ⟨lock_submit_denied_reports_command.1 cbShared futDenied worldFree [] 0
     ⟨[(⟨0, 4⟩, bufStateShared)]⟩ [] [] ⟨0, 4⟩ bufStateShared [] .AlreadyInUse
     ⟨0, "dst_buffer"⟩ [] "fill_buffer" rfl rfl rfl rfl rfl rfl rfl,
   lock_submit_denied_reports_command.2 cbLayout futDenied worldFree [] 0
     ⟨[(⟨0, 1⟩, imgStateExclusive)]⟩ [] [] ⟨0, 1⟩ imgStateExclusive [] .AlreadyInUse
     ⟨0, "dst_image"⟩ [] "copy_image" rfl rfl rfl rfl rfl rfl rfl rfl⟩

theorem acquireBufferLocks_mono (entries : List (DRange × BufferFinalState)) :
    ∀ (s : BufferState) (x : DRange × Bool),
      x ∈ s.locks → x ∈ (acquireBufferLocks entries s).locks := by
  induction entries with
  | nil => intro s x hx; exact hx
  | cons e rest ih =>
    intro s x hx
    simp only [acquireBufferLocks, List.foldl_cons]
    by_cases he : e.2.exclusive
    · exact ih _ x (by simp [he, BufferState.gpu_write_lock, hx])
    · exact ih _ x (by simp [he, BufferState.gpu_read_lock, hx])

theorem acquireBufferLocks_mem (entries : List (DRange × BufferFinalState)) :
    ∀ (s : BufferState) (e : DRange × BufferFinalState),
      e ∈ entries → (e.1, e.2.exclusive) ∈ (acquireBufferLocks entries s).locks := by
  induction entries with
  | nil => intro s e he; exact absurd he (List.not_mem_nil e)
  | cons e0 rest ih =>
    intro s e he
    simp only [acquireBufferLocks, List.foldl_cons]
    rcases List.mem_cons.mp he with h1 | h2
    · subst h1
      by_cases he0 : e.2.exclusive
      · exact acquireBufferLocks_mono rest _ _ (by simp [he0, BufferState.gpu_write_lock])
      · have he0' : e.2.exclusive = false := by
          cases hb : e.2.exclusive
          · rfl
          · exact absurd hb he0
        exact acquireBufferLocks_mono rest _ _ (by simp [he0', BufferState.gpu_read_lock])
    · exact ih _ e h2

theorem acquireImageLocks_mono (entries : List (DRange × ImageFinalState)) :
    ∀ (s : ImageState) (x : DRange × Bool),
      x ∈ s.locks → x ∈ (acquireImageLocks entries s).locks := by
  induction entries with
  | nil => intro s x hx; exact hx
  | cons e rest ih =>
    intro s x hx
    simp only [acquireImageLocks, List.foldl_cons]
    by_cases he : e.2.exclusive
    · exact ih _ x (by simp [he, ImageState.gpu_write_lock, hx])
    · exact ih _ x (by simp [he, ImageState.gpu_read_lock, hx])

theorem acquireImageLocks_mem (entries : List (DRange × ImageFinalState)) :
    ∀ (s : ImageState) (e : DRange × ImageFinalState),
      e ∈ entries → (e.1, e.2.exclusive) ∈ (acquireImageLocks entries s).locks := by
  induction entries with
  | nil => intro s e he; exact absurd he (List.not_mem_nil e)
  | cons e0 rest ih =>
    intro s e he
    simp only [acquireImageLocks, List.foldl_cons]
    rcases List.mem_cons.mp he with h1 | h2
    · subst h1
      by_cases he0 : e.2.exclusive
      · exact acquireImageLocks_mono rest _ _ (by simp [he0, ImageState.gpu_write_lock])
      · have he0' : e.2.exclusive = false := by
          cases hb : e.2.exclusive
          · rfl
          · exact absurd hb he0
        exact acquireImageLocks_mono rest _ _ (by simp [he0', ImageState.gpu_read_lock])
    · exact ih _ e h2

theorem bufferFold_mono (l : List (Nat × RangeMap BufferFinalState)) :
    ∀ (w : World) (b : Nat) (x : DRange × Bool),
      x ∈ (w.buffers b).locks → x ∈ ((l.foldl acquireBufferStep w).buffers b).locks := by
  induction l with
  | nil => intro w b x hx; exact hx
  | cons p rest ih =>
    intro w b x hx
    simp only [List.foldl_cons]
    apply ih
    simp only [acquireBufferStep, World.updateBuffer]
    by_cases hb : b = p.1
    · subst hb; simp only [if_pos rfl]; exact acquireBufferLocks_mono _ _ _ hx
    · simp only [if_neg hb]; exact hx

theorem bufferFold_mem (l : List (Nat × RangeMap BufferFinalState)) :
    ∀ (w : World) (p : Nat × RangeMap BufferFinalState), p ∈ l →
      ∀ e ∈ p.2.entries,
        (e.1, e.2.exclusive) ∈ ((l.foldl acquireBufferStep w).buffers p.1).locks := by
  induction l with
  | nil => intro w p hp; exact absurd hp (List.not_mem_nil p)
  | cons p0 rest ih =>
    intro w p hp e he
    simp only [List.foldl_cons]
    rcases List.mem_cons.mp hp with h1 | h2
    · subst h1
      apply bufferFold_mono
      simp only [acquireBufferStep, World.updateBuffer, if_pos rfl]
      exact acquireBufferLocks_mem _ _ _ he
    · exact ih _ p h2 e he

theorem imageFold_buffers_eq (l : List (Nat × RangeMap ImageFinalState)) :
    ∀ (w : World) (b : Nat), ((l.foldl acquireImageStep w).buffers b) = w.buffers b := by
  induction l with
  | nil => intro w b; rfl
  | cons p rest ih =>
    intro w b
    simp only [List.foldl_cons]
    rw [ih]
    rfl

theorem imageFold_mono (l : List (Nat × RangeMap ImageFinalState)) :
    ∀ (w : World) (i : Nat) (x : DRange × Bool),
      x ∈ (w.images i).locks → x ∈ ((l.foldl acquireImageStep w).images i).locks := by
  induction l with
  | nil => intro w i x hx; exact hx
  | cons p rest ih =>
    intro w i x hx
    simp only [List.foldl_cons]
    apply ih
    simp only [acquireImageStep, World.updateImage]
    by_cases hi : i = p.1
    · subst hi; simp only [if_pos rfl]; exact acquireImageLocks_mono _ _ _ hx
    · simp only [if_neg hi]; exact hx

theorem imageFold_mem (l : List (Nat × RangeMap ImageFinalState)) :
    ∀ (w : World) (p : Nat × RangeMap ImageFinalState), p ∈ l →
      ∀ e ∈ p.2.entries,
        (e.1, e.2.exclusive) ∈ ((l.foldl acquireImageStep w).images p.1).locks := by
  induction l with
  | nil => intro w p hp; exact absurd hp (List.not_mem_nil p)
  | cons p0 rest ih =>
    intro w p hp e he
    simp only [List.foldl_cons]
    rcases List.mem_cons.mp hp with h1 | h2
    · subst h1
      apply imageFold_mono
      simp only [acquireImageStep, World.updateImage, if_pos rfl]
      exact acquireImageLocks_mem _ _ _ he
    · exact ih _ p h2 e he

/-- C1: lock acquisition in `lock_submit` is all-or-nothing. The call
succeeds exactly when every tracked buffer and image range passes its check;
on any failure it returns an error with the world unchanged (no gpu lock
acquired); on success it has acquired, for every tracked range, a gpu write
lock when the recorded state is exclusive and a gpu read lock otherwise. -/
theorem lock_submit_all_or_nothing (cb : SyncCommandBuffer) (fut : GpuFuture) (w : World) :
    ((cb.lock_submit fut w).1 = none ↔
      (checkAllBuffers cb fut w cb.buffers2 = none ∧
        checkAllImages cb fut w cb.images2 = none)) ∧
    (∀ e, (cb.lock_submit fut w).1 = some e → (cb.lock_submit fut w).2 = w) ∧
    ((cb.lock_submit fut w).1 = none →
      (∀ p ∈ cb.buffers2, ∀ e ∈ p.2.entries,
        (e.1, e.2.exclusive) ∈ ((cb.lock_submit fut w).2.buffers p.1).locks) ∧
      (∀ p ∈ cb.images2, ∀ e ∈ p.2.entries,
        (e.1, e.2.exclusive) ∈ ((cb.lock_submit fut w).2.images p.1).locks)) := by
  unfold SyncCommandBuffer.lock_submit
  cases hb : checkAllBuffers cb fut w cb.buffers2 with
  | some e =>
    refine ⟨by simp, by simp, by simp⟩
  | none =>
    cases hi : checkAllImages cb fut w cb.images2 with
    | some e =>
      refine ⟨by simp [hi], by simp, by simp⟩
    | none =>
      refine ⟨by simp, by simp, ?_⟩
      intro _
      constructor
      · intro p hp e he
        simp only [acquireAll]
        rw [imageFold_buffers_eq]
        exact bufferFold_mem cb.buffers2 w p hp e he
      · intro p hp e he
        simp only [acquireAll]
        exact imageFold_mem cb.images2 _ p hp e he

/-- Witness for the all-or-nothing theorem: with the granting future the
submit succeeds and the shared range `0..4` of buffer `0` ends up read
locked; with the denying future the submit fails and the world is returned
untouched. -/
theorem lock_submit_all_or_nothing_witness :
    (cbShared.lock_submit futOk worldFree).1 = none ∧
    (⟨0, 4⟩, false) ∈ ((cbShared.lock_submit futOk worldFree).2.buffers 0).locks ∧
    (cbShared.lock_submit futDenied worldFree).1 =
      some (.access ⟨.AlreadyInUse, "fill_buffer", "dst_buffer", 0⟩) ∧
    (cbShared.lock_submit futDenied worldFree).2 = worldFree :=
  ⟨rfl,
   ((lock_submit_all_or_nothing cbShared futOk worldFree).2.2 rfl).1
     (0, ⟨[(⟨0, 4⟩, bufStateShared)]⟩) (by simp [cbShared]) (⟨0, 4⟩, bufStateShared)
     (by simp),
   rfl,
   (lock_submit_all_or_nothing cbShared futDenied worldFree).2.1
     (.access ⟨.AlreadyInUse, "fill_buffer", "dst_buffer", 0⟩) rfl⟩

/-- C7: two secondary command buffers plainly writing the same buffer produce
one inserted barrier per execute-batch boundary separating the conflicting
writes: recorded as two separate execute batches, exactly one barrier (at
the boundary, before command 1); recorded as one combined batch, zero
inserted barriers — the intra-batch hazard is left to the caller. -/
theorem secondary_batches_barrier_count (buf : Nat) :
    ((SpecBuilder.empty.executeBatch [[(buf, true)]]).executeBatch [[(buf, true)]]).barriers
      = [1] ∧
    (SpecBuilder.empty.executeBatch [[(buf, true)], [(buf, true)]]).barriers = [] := by
  constructor
  · simp [SpecBuilder.executeBatch, SpecBuilder.addCommand, SpecBuilder.empty, specConflicts,
      specUpdateTracked, assocFind]
  · simp [SpecBuilder.executeBatch, SpecBuilder.addCommand, SpecBuilder.empty, specConflicts,
      assocFind]

theorem recordBufferEntry_bounded (i n : Nat) (d : BufferDecl) (hi : i < n) :
    ∀ l : List (DRange × BufferFinalState),
      (∀ e ∈ l, e.2.resource_uses ≠ [] ∧ ∀ u ∈ e.2.resource_uses, u.command_index < n) →
      ∀ e ∈ recordBufferEntry i d l,
        e.2.resource_uses ≠ [] ∧ ∀ u ∈ e.2.resource_uses, u.command_index < n := by
  intro l
  induction l with
  | nil =>
    intro _ e he
    simp only [recordBufferEntry, List.mem_singleton] at he
    subst he
    refine ⟨by simp, ?_⟩
    intro u hu
    simp only [List.mem_singleton] at hu
    subst hu
    exact hi
  | cons e0 rest ih =>
    intro hl e he
    have hl0 := hl e0 (List.mem_cons_self e0 rest)
    have hlrest : ∀ e ∈ rest,
        e.2.resource_uses ≠ [] ∧ ∀ u ∈ e.2.resource_uses, u.command_index < n :=
      fun e he => hl e (List.mem_cons_of_mem e0 he)
    cases hint : e0.1.intersects d.range with
    | false =>
      simp only [recordBufferEntry, hint, Bool.false_eq_true, if_false] at he
      rcases List.mem_cons.mp he with h1 | h2
      · subst h1; exact hl0
      · exact ih hlrest e h2
    | true =>
      cases hsh : (!e0.2.exclusive && !d.exclusive) with
      | true =>
        simp only [recordBufferEntry, hint, hsh, if_true] at he
        rcases List.mem_cons.mp he with h1 | h2
        · subst h1
          refine ⟨by simp, ?_⟩
          intro u hu
          rcases List.mem_append.mp hu with hu1 | hu2
          · exact hl0.2 u hu1
          · simp only [List.mem_singleton] at hu2; subst hu2; exact hi
        · exact hlrest e h2
      | false =>
        simp only [recordBufferEntry, hint, hsh, Bool.false_eq_true, if_true, if_false] at he
        rcases List.mem_cons.mp he with h1 | h2
        · subst h1
          refine ⟨by simp, ?_⟩
          intro u hu
          rcases List.mem_append.mp hu with hu1 | hu2
          · exact hl0.2 u hu1
          · simp only [List.mem_singleton] at hu2; subst hu2; exact hi
        · exact hlrest e h2

theorem recordImageEntry_bounded (i n : Nat) (d : ImageDecl) (hi : i < n) :
    ∀ l : List (DRange × ImageFinalState),
      (∀ e ∈ l, e.2.resource_uses ≠ [] ∧ ∀ u ∈ e.2.resource_uses, u.command_index < n) →
      ∀ e ∈ recordImageEntry i d l,
        e.2.resource_uses ≠ [] ∧ ∀ u ∈ e.2.resource_uses, u.command_index < n := by
  intro l
  induction l with
  | nil =>
    intro _ e he
    simp only [recordImageEntry, List.mem_singleton] at he
    subst he
    refine ⟨by simp, ?_⟩
    intro u hu
    simp only [List.mem_singleton] at hu
    subst hu
    exact hi
  | cons e0 rest ih =>
    intro hl e he
    have hl0 := hl e0 (List.mem_cons_self e0 rest)
    have hlrest : ∀ e ∈ rest,
        e.2.resource_uses ≠ [] ∧ ∀ u ∈ e.2.resource_uses, u.command_index < n :=
      fun e he => hl e (List.mem_cons_of_mem e0 he)
    cases hint : e0.1.intersects d.range with
    | false =>
      simp only [recordImageEntry, hint, Bool.false_eq_true, if_false] at he
      rcases List.mem_cons.mp he with h1 | h2
      · subst h1; exact hl0
      · exact ih hlrest e h2
    | true =>
      simp only [recordImageEntry, hint, if_true] at he
      have hmem : ∀ st' : ImageFinalState,
          st'.resource_uses = e0.2.resource_uses ++ [⟨i, d.param⟩] →
          e ∈ (e0.1, st') :: rest →
          e.2.resource_uses ≠ [] ∧ ∀ u ∈ e.2.resource_uses, u.command_index < n := by
        intro st' hst' hin
        rcases List.mem_cons.mp hin with h1 | h2
        · subst h1
          refine ⟨by simp [hst'], ?_⟩
          intro u hu
          rw [hst'] at hu
          rcases List.mem_append.mp hu with hu1 | hu2
          · exact hl0.2 u hu1
          · simp only [List.mem_singleton] at hu2; subst hu2; exact hi
        · exact hlrest e h2
      split at he
      · exact hmem _ rfl he
      · exact hmem _ rfl he

theorem recordBufferDecl_bounded (i n : Nat) (d : BufferDecl) (hi : i < n) :
    ∀ m : List (Nat × RangeMap BufferFinalState),
      bufMapBounded n m → bufMapBounded n (recordBufferDecl i d m) := by
  intro m
  induction m with
  | nil =>
    intro _ p hp
    simp only [recordBufferDecl, List.mem_singleton] at hp
    subst hp
    exact recordBufferEntry_bounded i n d hi [] (by simp)
  | cons p0 rest ih =>
    intro hm p hp
    have hm0 := hm p0 (List.mem_cons_self p0 rest)
    have hmrest : bufMapBounded n rest := fun p hp => hm p (List.mem_cons_of_mem p0 hp)
    obtain ⟨b0, rm0⟩ := p0
    by_cases hb : b0 = d.buffer
    · simp only [recordBufferDecl, if_pos hb] at hp
      rcases List.mem_cons.mp hp with h1 | h2
      · subst h1
        exact recordBufferEntry_bounded i n d hi rm0.entries hm0
      · exact hmrest p h2
    · simp only [recordBufferDecl, if_neg hb] at hp
      rcases List.mem_cons.mp hp with h1 | h2
      · subst h1; exact hm0
      · exact ih hmrest p h2

theorem recordImageDecl_bounded (i n : Nat) (d : ImageDecl) (hi : i < n) :
    ∀ m : List (Nat × RangeMap ImageFinalState),
      imgMapBounded n m → imgMapBounded n (recordImageDecl i d m) := by
  intro m
  induction m with
  | nil =>
    intro _ p hp
    simp only [recordImageDecl, List.mem_singleton] at hp
    subst hp
    exact recordImageEntry_bounded i n d hi [] (by simp)
  | cons p0 rest ih =>
    intro hm p hp
    have hm0 := hm p0 (List.mem_cons_self p0 rest)
    have hmrest : imgMapBounded n rest := fun p hp => hm p (List.mem_cons_of_mem p0 hp)
    obtain ⟨i0, rm0⟩ := p0
    by_cases hb : i0 = d.image
    · simp only [recordImageDecl, if_pos hb] at hp
      rcases List.mem_cons.mp hp with h1 | h2
      · subst h1
        exact recordImageEntry_bounded i n d hi rm0.entries hm0
      · exact hmrest p h2
    · simp only [recordImageDecl, if_neg hb] at hp
      rcases List.mem_cons.mp hp with h1 | h2
      · subst h1; exact hm0
      · exact ih hmrest p h2

theorem foldRecordBuffer_bounded (i n : Nat) (hi : i < n) :
    ∀ (ds : List BufferDecl) (m : List (Nat × RangeMap BufferFinalState)),
      bufMapBounded n m →
      bufMapBounded n (ds.foldl (fun m d => recordBufferDecl i d m) m) := by
  intro ds
  induction ds with
  | nil => intro m hm; exact hm
  | cons d rest ih =>
    intro m hm
    simp only [List.foldl_cons]
    exact ih _ (recordBufferDecl_bounded i n d hi m hm)

theorem foldRecordImage_bounded (i n : Nat) (hi : i < n) :
    ∀ (ds : List ImageDecl) (m : List (Nat × RangeMap ImageFinalState)),
      imgMapBounded n m →
      imgMapBounded n (ds.foldl (fun m d => recordImageDecl i d m) m) := by
  intro ds
  induction ds with
  | nil => intro m hm; exact hm
  | cons d rest ih =>
    intro m hm
    simp only [List.foldl_cons]
    exact ih _ (recordImageDecl_bounded i n d hi m hm)

theorem bufMapBounded_mono {n n' : Nat} (h : n ≤ n') :
    ∀ m, bufMapBounded n m → bufMapBounded n' m :=
  fun _ hm p hp e he =>
    ⟨(hm p hp e he).1, fun u hu => lt_of_lt_of_le ((hm p hp e he).2 u hu) h⟩

theorem imgMapBounded_mono {n n' : Nat} (h : n ≤ n') :
    ∀ m, imgMapBounded n m → imgMapBounded n' m :=
  fun _ hm p hp e he =>
    ⟨(hm p hp e he).1, fun u hu => lt_of_lt_of_le ((hm p hp e he).2 u hu) h⟩

theorem buildCommand_wf (c : RecordedCommand) (cb : SyncCommandBuffer)
    (h : cb.wellFormed) : (buildCommand cb.commands.length c cb).wellFormed := by
  obtain ⟨hb, hi⟩ := h
  constructor
  · show bufMapBounded (cb.commands ++ [c.cname]).length _
    rw [List.length_append, List.length_singleton]
    exact foldRecordBuffer_bounded cb.commands.length (cb.commands.length + 1)
      (Nat.lt_succ_self _) c.buffer_uses cb.buffers2
      (bufMapBounded_mono (Nat.le_succ _) cb.buffers2 hb)
  · show imgMapBounded (cb.commands ++ [c.cname]).length _
    rw [List.length_append, List.length_singleton]
    exact foldRecordImage_bounded cb.commands.length (cb.commands.length + 1)
      (Nat.lt_succ_self _) c.image_uses cb.images2
      (imgMapBounded_mono (Nat.le_succ _) cb.images2 hi)

theorem buildAux_wf :
    ∀ (cmds : List RecordedCommand) (acc : Nat × SyncCommandBuffer),
      acc.1 = acc.2.commands.length → acc.2.wellFormed →
      ((cmds.foldl (fun (acc : Nat × SyncCommandBuffer) c =>
        (acc.1 + 1, buildCommand acc.1 c acc.2)) acc).2).wellFormed := by
  intro cmds
  induction cmds with
  | nil => intro acc _ h2; exact h2
  | cons c rest ih =>
    intro acc h1 h2
    simp only [List.foldl_cons]
    apply ih
    · simp only [buildCommand, List.length_append, List.length_singleton, h1]
    · rw [h1]
      exact buildCommand_wf c acc.2 h2

theorem mkBufferAccessErr_not_panic (cb : SyncCommandBuffer) (uses : List BufferUse)
    (err : AccessError) (h1 : uses ≠ [])
    (h2 : ∀ u ∈ uses, u.command_index < cb.commands.length) :
    mkBufferAccessErr cb uses err ≠ .panic := by
  cases uses with
  | nil => exact absurd rfl h1
  | cons u rest =>
    have hu := h2 u (List.mem_cons_self u rest)
    have hg : cb.commands.get? u.command_index =
        some (cb.commands.get ⟨u.command_index, hu⟩) := List.get?_eq_get hu
    simp only [mkBufferAccessErr, hg]
    intro hc
    exact LockErr.noConfusion hc

theorem mkImageAccessErr_not_panic (cb : SyncCommandBuffer) (uses : List ImageUse)
    (err : AccessError) (h1 : uses ≠ [])
    (h2 : ∀ u ∈ uses, u.command_index < cb.commands.length) :
    mkImageAccessErr cb uses err ≠ .panic := by
  cases uses with
  | nil => exact absurd rfl h1
  | cons u rest =>
    have hu := h2 u (List.mem_cons_self u rest)
    have hg : cb.commands.get? u.command_index =
        some (cb.commands.get ⟨u.command_index, hu⟩) := List.get?_eq_get hu
    simp only [mkImageAccessErr, hg]
    intro hc
    exact LockErr.noConfusion hc

theorem checkBufferEntry_not_panic (cb : SyncCommandBuffer) (fut : GpuFuture)
    (bstate : BufferState) (b : Nat) (e : DRange × BufferFinalState)
    (h1 : e.2.resource_uses ≠ [])
    (h2 : ∀ u ∈ e.2.resource_uses, u.command_index < cb.commands.length) :
    checkBufferEntry cb fut bstate b e ≠ some .panic := by
  unfold checkBufferEntry
  cases hf : fut.check_buffer_access b e.1 e.2.exclusive with
  | ok v => simp
  | error err =>
    cases err with
    | Denied a =>
      intro hc
      exact mkBufferAccessErr_not_panic cb e.2.resource_uses a h1 h2 (Option.some.inj hc)
    | Unknown =>
      cases hcheck : (if e.2.exclusive then bstate.check_gpu_write e.1
          else bstate.check_gpu_read e.1) with
      | ok v => simp [hcheck]
      | error err2 =>
        simp only [hcheck]
        intro hc
        exact mkBufferAccessErr_not_panic cb e.2.resource_uses err2 h1 h2 (Option.some.inj hc)

theorem checkImageEntry_not_panic (cb : SyncCommandBuffer) (fut : GpuFuture)
    (istate : ImageState) (i : Nat) (e : DRange × ImageFinalState)
    (h1 : e.2.resource_uses ≠ [])
    (h2 : ∀ u ∈ e.2.resource_uses, u.command_index < cb.commands.length) :
    checkImageEntry cb fut istate i e ≠ some .panic := by
  unfold checkImageEntry
  cases hf : fut.check_image_access i e.1 e.2.exclusive e.2.initial_layout with
  | ok v => simp
  | error err =>
    cases err with
    | Denied a =>
      intro hc
      exact mkImageAccessErr_not_panic cb e.2.resource_uses a h1 h2 (Option.some.inj hc)
    | Unknown =>
      cases hcheck : (if e.2.exclusive then istate.check_gpu_write e.1 e.2.initial_layout
          else istate.check_gpu_read e.1 e.2.initial_layout) with
      | ok v => simp [hcheck]
      | error err2 =>
        simp only [hcheck]
        intro hc
        exact mkImageAccessErr_not_panic cb e.2.resource_uses err2 h1 h2 (Option.some.inj hc)

theorem checkBufferEntries_not_panic (cb : SyncCommandBuffer) (fut : GpuFuture)
    (bstate : BufferState) (b : Nat) :
    ∀ entries : List (DRange × BufferFinalState),
      (∀ e ∈ entries, e.2.resource_uses ≠ [] ∧
        ∀ u ∈ e.2.resource_uses, u.command_index < cb.commands.length) →
      checkBufferEntries cb fut bstate b entries ≠ some .panic := by
  intro entries
  induction entries with
  | nil => intro _; simp [checkBufferEntries]
  | cons e rest ih =>
    intro hl
    have he := hl e (List.mem_cons_self e rest)
    simp only [checkBufferEntries]
    cases hh : checkBufferEntry cb fut bstate b e with
    | some err =>
      intro hc
      rw [Option.some.inj hc] at hh
      exact checkBufferEntry_not_panic cb fut bstate b e he.1 he.2 hh
    | none => exact ih (fun e he => hl e (List.mem_cons_of_mem _ he))

theorem checkImageEntries_not_panic (cb : SyncCommandBuffer) (fut : GpuFuture)
    (istate : ImageState) (i : Nat) :
    ∀ entries : List (DRange × ImageFinalState),
      (∀ e ∈ entries, e.2.resource_uses ≠ [] ∧
        ∀ u ∈ e.2.resource_uses, u.command_index < cb.commands.length) →
      checkImageEntries cb fut istate i entries ≠ some .panic := by
  intro entries
  induction entries with
  | nil => intro _; simp [checkImageEntries]
  | cons e rest ih =>
    intro hl
    have he := hl e (List.mem_cons_self e rest)
    simp only [checkImageEntries]
    cases hh : checkImageEntry cb fut istate i e with
    | some err =>
      intro hc
      rw [Option.some.inj hc] at hh
      exact checkImageEntry_not_panic cb fut istate i e he.1 he.2 hh
    | none => exact ih (fun e he => hl e (List.mem_cons_of_mem _ he))

theorem checkAllBuffers_not_panic (cb : SyncCommandBuffer) (fut : GpuFuture) (w : World) :
    ∀ l : List (Nat × RangeMap BufferFinalState),
      bufMapBounded cb.commands.length l →
      checkAllBuffers cb fut w l ≠ some .panic := by
  intro l
  induction l with
  | nil => intro _; simp [checkAllBuffers]
  | cons p rest ih =>
    intro hm
    obtain ⟨b, rm⟩ := p
    have hp := hm (b, rm) (List.mem_cons_self _ rest)
    simp only [checkAllBuffers]
    cases hh : checkBufferEntries cb fut (w.buffers b) b rm.iter with
    | some err =>
      intro hc
      rw [Option.some.inj hc] at hh
      exact checkBufferEntries_not_panic cb fut (w.buffers b) b rm.iter hp hh
    | none => exact ih (fun p hp => hm p (List.mem_cons_of_mem _ hp))

theorem checkAllImages_not_panic (cb : SyncCommandBuffer) (fut : GpuFuture) (w : World) :
    ∀ l : List (Nat × RangeMap ImageFinalState),
      imgMapBounded cb.commands.length l →
      checkAllImages cb fut w l ≠ some .panic := by
  intro l
  induction l with
  | nil => intro _; simp [checkAllImages]
  | cons p rest ih =>
    intro hm
    obtain ⟨i, rm⟩ := p
    have hp := hm (i, rm) (List.mem_cons_self _ rest)
    simp only [checkAllImages]
    cases hh : checkImageEntries cb fut (w.images i) i rm.iter with
    | some err =>
      intro hc
      rw [Option.some.inj hc] at hh
      exact checkImageEntries_not_panic cb fut (w.images i) i rm.iter hp hh
    | none => exact ih (fun p hp => hm p (List.mem_cons_of_mem _ hp))

/-- C8: every finalized command buffer produced by recording (modelled from
the spec) is well-formed — each tracked per-range state carries a non-empty
use list whose command indices are valid indices into the command list —
and on any well-formed command buffer the error-reporting paths of
`lock_submit` (which index `resource_uses[0]` and `commands[command_index]`)
never panic. -/
theorem finalized_wellformed_no_panic :
    (∀ cmds : List RecordedCommand, (buildFromSpec cmds).wellFormed) ∧
    (∀ (cb : SyncCommandBuffer) (fut : GpuFuture) (w : World),
      cb.wellFormed → (cb.lock_submit fut w).1 ≠ some .panic) := by
  constructor
  · intro cmds
    apply buildAux_wf cmds (0, ⟨[], [], [], []⟩) rfl
    constructor
    · intro p hp; exact absurd hp (List.not_mem_nil p)
    · intro p hp; exact absurd hp (List.not_mem_nil p)
  · intro cb fut w h
    obtain ⟨hb, hi⟩ := h
    unfold SyncCommandBuffer.lock_submit
    cases hcb : checkAllBuffers cb fut w cb.buffers2 with
    | some e =>
      intro hc
      rw [Option.some.inj hc] at hcb
      exact checkAllBuffers_not_panic cb fut w cb.buffers2 hb hcb
    | none =>
      cases hci : checkAllImages cb fut w cb.images2 with
      | some e =>
        intro hc
        rw [Option.some.inj hc] at hci
        exact checkAllImages_not_panic cb fut w cb.images2 hi hci
      | none => simp

/-- Witness for the well-formedness theorem: a one-command build is
well-formed, and `lock_submit` on the well-formed `cbShared` fixture does not
hit a panic path even under the always-denying future. -/
theorem finalized_wellformed_no_panic_witness :
    (buildFromSpec [⟨"fill_buffer", [⟨0, ⟨0, 4⟩, "dst_buffer", true, 1, 2⟩], []⟩]).wellFormed ∧
    (cbShared.lock_submit futDenied worldFree).1 ≠ some .panic :=
  ⟨finalized_wellformed_no_panic.1 [⟨"fill_buffer", [⟨0, ⟨0, 4⟩, "dst_buffer", true, 1, 2⟩], []⟩],
   finalized_wellformed_no_panic.2 cbShared futDenied worldFree (by decide)⟩

end Vulkano
